import Mathlib

/-!
Shallow embedding of the execution core of a small Unix shell
(`executor.c`, `jobs.c`, `jobs.h`): the background-job registry, the
single-command executor and the N-stage pipeline executor.

The parent process's observable behaviour is modelled explicitly:
which file descriptors it opens and closes, which process ids it
spawns, which process ids it performs a blocking wait on, the job
table it mutates, and the lines it prints on standard output.
Operating-system nondeterminism (success or failure of `pipe`, `open`,
`fork`, `malloc`; results of non-blocking `waitpid`; the residual
contents of freshly `malloc`ed memory) is captured by an explicit
environment `Env` that the functions consume.
-/

namespace ShellCore

/-- Result of a `waitpid(pid, &status, WNOHANG)` probe as seen by the
caller: the pid itself (the child exited or was signalled), `0` (still
running), or `-1` (error, e.g. `ECHILD`: no such process). -/
inductive WaitRes where
  | changed
  | running
  | noChild
deriving DecidableEq, Repr

/-- One slot of the job table (`job_t` in `jobs.h`). -/
structure Job where
  pid : Nat
  active : Bool
  cmdline : String
deriving DecidableEq, Repr

/-- Capacity of the job table (`MAX_JOBS` in `jobs.h`). -/
def MAX_JOBS : Nat := 64

/-- The `cmdline` field of `job_t` is a 256-byte buffer, so
`snprintf(dst, sizeof dst, "%s", src)` keeps at most 255 characters. -/
def CMDLINE_CAP : Nat := 255

/-- Silent truncation performed by `snprintf` in `add_job`: keep the
first `CMDLINE_CAP` characters of the source text. -/
def truncCmd (s : String) : String := String.mk (s.data.take CMDLINE_CAP)

/-- Scan of `add_job` starting at slot index `i`: find the first
inactive slot, store the pid, mark it active, store the truncated
command text, and return the slot index; return `-1` when no slot is
free (`jobs: job table full` diagnostic, table unchanged). -/
def addJobAux (pid : Nat) (cmd : String) : List Job → Nat → Int × List Job
  | [], _ => (-1, [])
  | j :: rest, i =>
    if j.active = false then
      ((i : Int), { pid := pid, active := true, cmdline := truncCmd cmd } :: rest)
    else
      let r := addJobAux pid cmd rest (i + 1)
      (r.1, j :: r.2)

/-- `add_job` from `jobs.c`. -/
def add_job (jobs : List Job) (pid : Nat) (cmd : String) : Int × List Job :=
  addJobAux pid cmd jobs 0

/-- Update of one slot by `reap_finished_jobs`: an active slot is
cleared exactly when the non-blocking probe returned the pid itself
(`r == g_jobs[i].pid`). -/
def reapSlot (wait : Nat → WaitRes) (j : Job) : Job :=
  if j.active = true then
    if wait j.pid = WaitRes.changed then { j with active := false } else j
  else j

/-- `reap_finished_jobs` from `jobs.c`. -/
def reap_finished_jobs (wait : Nat → WaitRes) (jobs : List Job) : List Job :=
  jobs.map (reapSlot wait)

/-- Text of one `jobs` listing line, after the `[%d] Running  %s`
format of `print_jobs` (with `(unknown)` substituted for an empty
stored command line, mirroring `cmdline[0] ? cmdline : "(unknown)"`). -/
def jobLine (j : Job) : String :=
  "[" ++ toString j.pid ++ "] Running  " ++
    (if j.cmdline = "" then "(unknown)" else j.cmdline)

/-- `print_jobs` from `jobs.c`: refresh the table with
`reap_finished_jobs` first, then print one line per active slot in
slot order, or the sentinel line when none is active. Returns the
updated table and the printed lines. -/
def print_jobs (wait : Nat → WaitRes) (jobs : List Job) : List Job × List String :=
  let jobs' := reap_finished_jobs wait jobs
  let lines := (jobs'.filter (fun j => j.active)).map jobLine
  (jobs', if lines = [] then ["(no background jobs)"] else lines)

/-! ### Executor model (`executor.c`) -/

/-- Standard input descriptor (`STDIN_FILENO`). -/
def STDIN_FILENO : Nat := 0

/-- Standard output descriptor (`STDOUT_FILENO`). -/
def STDOUT_FILENO : Nat := 1

/-- Parsed command line (`struct cmdline` from the parser): the stage
argv vectors, optional input/output redirection paths, background
flag.  `inp`/`outp` model `l->in`/`l->out` (`in` is reserved in
Lean). -/
structure Cmdline where
  seq : List (List String)
  inp : Option String
  outp : Option String
  bg : Bool

/-- Operating-system environment of one `execute` invocation: outcome
of each fallible call, pids handed out by `fork`, the residual
contents of freshly `malloc`ed memory, the non-blocking `waitpid`
probe results, and the shell-global `g_last_cmdline` text. -/
structure Env where
  pipeOk : Nat → Bool
  openInOk : Bool
  openOutOk : Bool
  mallocPipesOk : Bool
  mallocPidsOk : Bool
  forkOk : Nat → Bool
  forkPid : Nat → Nat
  pidsGarbage : Nat → Int
  wait : Nat → WaitRes
  lastCmdline : String

/-- Observable parent-process state threaded through the executor:
descriptors opened during the invocation and still open, the log of
`close` calls, the next fresh descriptor number, pids spawned, pids
the parent performed a blocking `waitpid` on, the job table, and the
lines printed on the shell's standard output. -/
structure PState where
  openFds : List Nat
  closedLog : List Nat
  nextFd : Nat
  spawned : List Nat
  waited : List Int
  jobs : List Job
  out : List String
deriving DecidableEq, Repr

/-- Initial parent state: nothing opened during the invocation yet;
fresh descriptors start above stdin/stdout/stderr; the job table is
the zero-initialised `g_jobs[MAX_JOBS] = {0}` (all slots inactive). -/
def pstate0 : PState :=
  { openFds := [], closedLog := [], nextFd := 3, spawned := [],
    waited := [],
    jobs := List.replicate MAX_JOBS { pid := 0, active := false, cmdline := "" },
    out := [] }

/-- Allocate a fresh descriptor (a successful `open` or one end of a
successful `pipe`). -/
def openNew (s : PState) : Nat × PState :=
  (s.nextFd,
   { s with openFds := s.openFds ++ [s.nextFd], nextFd := s.nextFd + 1 })

/-- `close(fd)` in the parent: the descriptor is no longer open, and
the call is logged. -/
def closeFd (fd : Nat) (s : PState) : PState :=
  { s with openFds := s.openFds.filter (fun x => x ≠ fd),
           closedLog := s.closedLog ++ [fd] }

/-- Close both ends of every pipe in the list, read end first
(`close(pipes[k][0]); close(pipes[k][1]);`). -/
def closePipes (ps : List (Nat × Nat)) (s : PState) : PState :=
  ps.foldl (fun s p => closeFd p.2 (closeFd p.1 s)) s

/-- `execute_command` from `executor.c`: run one program with the
given descriptors.  Empty argv is a silent success; on `fork` failure
the parent closes both non-standard descriptors and fails; on success
it closes both non-standard descriptors, then either blocks on the
child (foreground) or registers it with `add_job` under
`g_last_cmdline` (background). -/
def execute_command (env : Env) (args : List String) (infd outfd : Nat)
    (bg : Bool) (s : PState) : Nat × PState :=
  if args = [] then (0, s)
  else if env.forkOk 0 = false then
    let s := if infd ≠ STDIN_FILENO then closeFd infd s else s
    let s := if outfd ≠ STDOUT_FILENO then closeFd outfd s else s
    (1, s)
  else
    let pid := env.forkPid 0
    let s := { s with spawned := s.spawned ++ [pid] }
    let s := if infd ≠ STDIN_FILENO then closeFd infd s else s
    let s := if outfd ≠ STDOUT_FILENO then closeFd outfd s else s
    if bg = false then
      (0, { s with waited := s.waited ++ [(pid : Int)] })
    else
      (0, { s with jobs := (add_job s.jobs pid env.lastCmdline).2 })

/-- Output-redirection half of the single-command path of `execute`
(lines 92-101 of `executor.c`): open `l->out` write-only
(create/truncate) when present, closing the input descriptor and
failing when the open fails, then delegate to `execute_command`. -/
def runSingleOut (env : Env) (argv : List String) (l : Cmdline)
    (infd : Nat) (s : PState) : Nat × PState :=
  match l.outp with
  | some _ =>
    if env.openOutOk then
      let r := openNew s
      execute_command env argv infd r.1 l.bg r.2
    else
      (1, if infd ≠ STDIN_FILENO then closeFd infd s else s)
  | none => execute_command env argv infd STDOUT_FILENO l.bg s

/-- Single-command path of `execute` (lines 85-101 of `executor.c`),
after the builtin test: open `l->in` read-only when present (failure
aborts before anything else is opened), then resolve the output end
and delegate. -/
def runSingle (env : Env) (argv : List String) (l : Cmdline)
    (s : PState) : Nat × PState :=
  match l.inp with
  | some _ =>
    if env.openInOk then
      let r := openNew s
      runSingleOut env argv l r.1 r.2
    else (1, s)
  | none => runSingleOut env argv l STDIN_FILENO s

/-- Pipe-creation loop of `execute` (lines 114-121): with `todo`
iterations remaining and `i` the current loop index, create pipe `i`;
on failure close every previously created pipe and fail.  Entered with
`todo = npipes`, `i = 0`, mirroring `for (i = 0; i < npipes; i++)`. -/
def mkPipesAux (env : Env) :
    Nat → Nat → List (Nat × Nat) → PState → Option (List (Nat × Nat)) × PState
  | 0, _, acc, s => (some acc, s)
  | todo + 1, i, acc, s =>
    if env.pipeOk i = true then
      let r := openNew s
      let w := openNew r.2
      mkPipesAux env todo (i + 1) (acc ++ [(r.1, w.1)]) w.2
    else
      (none, closePipes acc s)

/-- The `PIPE_FAIL` label of `execute` (lines 226-239): close both
ends of every pipe, close the still-open end-redirection descriptors,
then loop `t` over all `ncmds` entries of the `pids` array — the
entries beyond the stages actually forked were never written and hold
the residual `malloc` contents — and perform a blocking `waitpid` on
each entry that is `> 0`. -/
def pipeFail (env : Env) (pipes : List (Nat × Nat)) (ncmds : Nat)
    (inFdF outFdL : Nat) (pids : List Nat) (s : PState) : Nat × PState :=
  let s := closePipes pipes s
  let s := if inFdF ≠ STDIN_FILENO then closeFd inFdF s else s
  let s := if outFdL ≠ STDOUT_FILENO then closeFd outFdL s else s
  let s := (List.range ncmds).foldl
    (fun s t =>
      let v : Int :=
        match pids.get? t with
        | some p => (p : Int)
        | none => env.pidsGarbage t
      if 0 < v then { s with waited := s.waited ++ [v] } else s) s
  (1, s)

/-- Spawn loop and epilogue of the pipeline path of `execute` (lines
157-224), iterating over the remaining stage argv vectors
(`l->seq[i]` onward, so the list argument is `l->seq` dropped by the
loop index `i`): for each stage in order, check the argv, `fork`,
record the pid, close the input-redirection descriptor after stage 0
(resetting it to the stdin sentinel) and the previous pipe's write end
after later stages; an empty argv or a failed `fork` jumps to
`PIPE_FAIL`.  After the last stage the parent closes all pipe ends and
the output redirection, then either waits on every pid in spawn order
(foreground) or registers `pids[0]` under `g_last_cmdline`
(background). -/
def spawnLoop (env : Env) (bg : Bool) (pipes : List (Nat × Nat))
    (ncmds : Nat) (outFdL : Nat) :
    List (List String) → Nat → Nat → List Nat → PState → Nat × PState
  | [], _, _, pids, s =>
    let s := closePipes pipes s
    let s := if outFdL ≠ STDOUT_FILENO then closeFd outFdL s else s
    if bg = false then
      (0, { s with waited := s.waited ++ pids.map (fun p => (p : Int)) })
    else
      (0, { s with jobs :=
              (add_job s.jobs ((pids.get? 0).getD 0) env.lastCmdline).2 })
  | argv :: rem, i, inFdF, pids, s =>
    if argv = [] then pipeFail env pipes ncmds inFdF outFdL pids s
    else if env.forkOk i = false then
      pipeFail env pipes ncmds inFdF outFdL pids s
    else
      let pid := env.forkPid i
      let s := { s with spawned := s.spawned ++ [pid] }
      let pids := pids ++ [pid]
      let c := if i = 0 ∧ inFdF ≠ STDIN_FILENO
               then (STDIN_FILENO, closeFd inFdF s) else (inFdF, s)
      let s := if 0 < i then closeFd ((pipes.get? (i - 1)).getD (0, 0)).2 c.2
               else c.2
      spawnLoop env bg pipes ncmds outFdL rem (i + 1) c.1 pids s

/-- Allocation of the `pids` array (lines 147-155 of `executor.c`) and
entry into the spawn loop. -/
def runPipelinePids (env : Env) (l : Cmdline) (ncmds : Nat)
    (pipes : List (Nat × Nat)) (inFdF outFdL : Nat) (s : PState) :
    Nat × PState :=
  if env.mallocPidsOk = false then
    let s := if inFdF ≠ STDIN_FILENO then closeFd inFdF s else s
    let s := if outFdL ≠ STDOUT_FILENO then closeFd outFdL s else s
    (1, closePipes pipes s)
  else
    spawnLoop env l.bg pipes ncmds outFdL l.seq 0 inFdF [] s

/-- Output-redirection and pid-array half of the pipeline path (lines
136-155 of `executor.c`), then the spawn loop. -/
def runPipelineOut (env : Env) (l : Cmdline) (ncmds : Nat)
    (pipes : List (Nat × Nat)) (inFdF : Nat) (s : PState) : Nat × PState :=
  match l.outp with
  | some _ =>
    if env.openOutOk then
      let r := openNew s
      runPipelinePids env l ncmds pipes inFdF r.1 r.2
    else
      let s := if inFdF ≠ STDIN_FILENO then closeFd inFdF s else s
      (1, closePipes pipes s)
  | none => runPipelinePids env l ncmds pipes inFdF STDOUT_FILENO s

/-- Pipeline path of `execute` for `ncmds ≥ 2` (lines 104-239):
allocate the pipe array, create the pipes, open the two end
redirections once, allocate the pid array, then run the spawn loop.
Each failure branch performs exactly the rollback of the
corresponding source branch. -/
def runPipeline (env : Env) (l : Cmdline) (ncmds : Nat) (s : PState) :
    Nat × PState :=
  let npipes := ncmds - 1
  if env.mallocPipesOk = false then (1, s)
  else
    let mk := mkPipesAux env npipes 0 [] s
    match mk.1 with
    | none => (1, mk.2)
    | some pipes =>
      let s := mk.2
      match l.inp with
      | some _ =>
        if env.openInOk then
          let r := openNew s
          runPipelineOut env l ncmds pipes r.1 r.2
        else (1, closePipes pipes s)
      | none => runPipelineOut env l ncmds pipes STDIN_FILENO s

/-- `execute` from `executor.c`: reap finished background jobs, count
the stages, dispatch to the no-op, builtin, single-command or pipeline
path. -/
def execute (env : Env) (l : Cmdline) (s : PState) : Nat × PState :=
  let s := { s with jobs := reap_finished_jobs env.wait s.jobs }
  let ncmds := l.seq.length
  if ncmds = 0 then (0, s)
  else if ncmds = 1 then
    let argv := (l.seq.get? 0).getD []
    if argv = [] then (0, s)
    else if argv.get? 0 = some "jobs" then
      let r := print_jobs env.wait s.jobs
      (0, { s with jobs := r.1, out := s.out ++ r.2 })
    else runSingle env argv l s
  else runPipeline env l ncmds s

/-- All descriptors belonging to a list of pipes (both ends, in
order). -/
def pipeFds (ps : List (Nat × Nat)) : List Nat :=
  ps.flatMap (fun p => [p.1, p.2])

/-- The process-observable effects of a parent state: pids spawned,
pids waited on, the job table, the printed lines.  Descriptor
bookkeeping (`openFds`, `closedLog`, `nextFd`) is excluded. -/
def PState.procObs (s : PState) : List Nat × List Int × List Job × List String :=
  (s.spawned, s.waited, s.jobs, s.out)

/-- Resolution of the two end redirections, written after the spec's
words (§4.3 steps 2 and 4): open the input path read-only, then the
output path write-only (create/truncate); either failure aborts,
closing anything already opened, before any process exists.  Used only
to compare the single-stage path of `execute` against the spec's
"delegate after resolving end redirections". -/
def resolveEndRedirections (env : Env) (l : Cmdline) (s : PState) :
    Option (Nat × Nat) × PState :=
  match l.inp with
  | some _ =>
    if env.openInOk then
      let r := openNew s
      match l.outp with
      | some _ =>
        if env.openOutOk then
          let w := openNew r.2
          (some (r.1, w.1), w.2)
        else (none, closeFd r.1 r.2)
      | none => (some (r.1, STDOUT_FILENO), r.2)
    else (none, s)
  | none =>
    match l.outp with
    | some _ =>
      if env.openOutOk then
        let w := openNew s
        (some (STDIN_FILENO, w.1), w.2)
      else (none, s)
    | none => (some (STDIN_FILENO, STDOUT_FILENO), s)

/-- Spec-side meaning of a single-stage command line (§4.3 step 2):
resolve the end redirections, then call the Single-Command Executor
directly with the resolved descriptors and the background flag; a
resolution failure reports failure. -/
def delegateToSingle (env : Env) (argv : List String) (l : Cmdline)
    (s : PState) : Nat × PState :=
  match resolveEndRedirections env l s with
  | (none, s) => (1, s)
  | (some fds, s) => execute_command env argv fds.1 fds.2 l.bg s

/-! ### Concrete inputs used by witnesses and counterexamples -/

/-- Environment in which every fallible call succeeds, `fork` hands
out pid `100 + i` at stage `i`, freshly `malloc`ed memory happens to
be zeroed, and every job probe reports "still running". -/
def envAllOk : Env :=
  { pipeOk := fun _ => true, openInOk := true, openOutOk := true,
    mallocPipesOk := true, mallocPidsOk := true, forkOk := fun _ => true,
    forkPid := fun i => 100 + i, pidsGarbage := fun _ => 0,
    wait := fun _ => WaitRes.running, lastCmdline := "sleep 5 | cat &" }

/-- A job table whose `MAX_JOBS` slots are all active. -/
def jobsFull : List Job :=
  List.replicate MAX_JOBS { pid := 1, active := true, cmdline := "a" }

/-- Environment in which every `fork` fails and the freshly `malloc`ed
pid array happens to contain the residual positive values
`7, 8, 9, ...`. -/
def envForkFail : Env :=
  { envAllOk with forkOk := fun _ => false,
                  pidsGarbage := fun t => 7 + (t : Int) }

/-- A three-stage foreground pipeline `a | b | c` with no
redirections. -/
def cmdline3 : Cmdline :=
  { seq := [["a"], ["b"], ["c"]], inp := none, outp := none, bg := false }

/-! ### Registry lemmas -/

lemma addJobAux_full (pid : Nat) (cmd : String) :
    ∀ (jobs : List Job) (n : Nat), (∀ j ∈ jobs, j.active = true) →
      addJobAux pid cmd jobs n = (-1, jobs) := by
  intro jobs
  induction jobs with
  | nil => intro n _; rfl
  | cons j rest ih =>
    intro n h
    have hj : j.active = true := h j (List.mem_cons_self j rest)
    have hrest := ih (n + 1) (fun x hx => h x (List.mem_cons_of_mem j hx))
    simp [addJobAux, hj, hrest]

lemma addJobAux_first (pid : Nat) (cmd : String) :
    ∀ (jobs : List Job) (n i : Nat) (hi : i < jobs.length),
      (∀ k (hk : k < i), (jobs.get ⟨k, hk.trans hi⟩).active = true) →
      (jobs.get ⟨i, hi⟩).active = false →
      addJobAux pid cmd jobs n =
        (((n + i : Nat) : Int),
         jobs.set i { pid := pid, active := true, cmdline := truncCmd cmd }) := by
  intro jobs
  induction jobs with
  | nil => intro n i hi; exact absurd hi (by simp)
  | cons j rest ih =>
    intro n i hi hk hact
    cases i with
    | zero =>
      have hj : j.active = false := hact
      simp [addJobAux, hj]
    | succ i =>
      have hj : j.active = true := hk 0 (Nat.succ_pos i)
      have hi' : i < rest.length := Nat.lt_of_succ_lt_succ hi
      have hrest := ih (n + 1) i hi'
        (fun k hkk => hk (k + 1) (Nat.succ_lt_succ hkk)) hact
      simp [addJobAux, hj, hrest, List.set]
      omega

/-- C4: `add_job` stores the pid, the active mark and the silently
truncated command text in the first inactive slot and returns its
index; when every one of the `MAX_JOBS = 64` slots is active it
returns `-1` leaving the table unchanged, so a 65th concurrent
insertion fails while the first 64 stay tracked. -/
theorem add_job_first_free_or_full (jobs : List Job) (pid : Nat) (cmd : String) :
    (jobs.length = MAX_JOBS → (∀ j ∈ jobs, j.active = true) →
        add_job jobs pid cmd = (-1, jobs)) ∧
    (∀ i (hi : i < jobs.length),
        (∀ k (hk : k < i), (jobs.get ⟨k, hk.trans hi⟩).active = true) →
        (jobs.get ⟨i, hi⟩).active = false →
        add_job jobs pid cmd =
          ((i : Int),
           jobs.set i { pid := pid, active := true, cmdline := truncCmd cmd })) ∧
    (truncCmd cmd).length ≤ CMDLINE_CAP := by
  refine ⟨fun _ hall => addJobAux_full pid cmd jobs 0 hall, fun i hi hk hact => ?_, ?_⟩
  · have := addJobAux_first pid cmd jobs 0 i hi hk hact
    simpa [add_job] using this
  · show (cmd.data.take CMDLINE_CAP).length ≤ CMDLINE_CAP
    exact List.length_take_le _ _

/-- Witness for C4 at concrete inputs: inserting into a full 64-slot
table fails and leaves it untouched; inserting into a table whose
second slot is free lands in slot 1 with the pid and text stored. -/
theorem add_job_first_free_or_full_witness :
    add_job jobsFull 9 "c" = (-1, jobsFull) ∧
    add_job [{ pid := 7, active := true, cmdline := "x" },
             { pid := 0, active := false, cmdline := "" }] 9 "c" =
      (1, [{ pid := 7, active := true, cmdline := "x" },
           { pid := 9, active := true, cmdline := truncCmd "c" }]) := by
  constructor
  · exact (add_job_first_free_or_full jobsFull 9 "c").1 (by rfl)
      (fun j hj => by
        have := List.eq_of_mem_replicate hj
        rw [this])
  · have := (add_job_first_free_or_full
      [{ pid := 7, active := true, cmdline := "x" },
       { pid := 0, active := false, cmdline := "" }] 9 "c").2.1 1 (by simp)
      (fun k hk => by
        have hk0 : k = 0 := by omega
        subst hk0; rfl) (by rfl)
    simpa using this

/-- C5 counterexample: a slot whose non-blocking probe reports "no
such process" (`waitpid` returned `-1`, e.g. `ECHILD` because the
process was already reaped elsewhere) is NOT marked inactive by
`reap_finished_jobs` — the claim says it is treated as
already-finished, but the slot stays active. -/
theorem reap_noChild_slot_stays_active :
    (reap_finished_jobs (fun _ => WaitRes.noChild)
        [{ pid := 5, active := true, cmdline := "x" }]).map Job.active = [true] ∧
    [true] ≠ [false] := by
  exact ⟨rfl, by decide⟩

lemma reapSlot_changed (wait : Nat → WaitRes) (j : Job) (h1 : j.active = true)
    (h2 : wait j.pid = WaitRes.changed) : (reapSlot wait j).active = false := by
  simp [reapSlot, h1, h2]

lemma reapSlot_not_changed (wait : Nat → WaitRes) (j : Job)
    (h2 : wait j.pid ≠ WaitRes.changed) : reapSlot wait j = j := by
  unfold reapSlot
  rcases h : j.active with _ | _ <;> simp [h, h2]

lemma reapSlot_inactive (wait : Nat → WaitRes) (j : Job)
    (h : j.active = false) : reapSlot wait j = j := by
  simp [reapSlot, h]

/-- C5 amended: `reap_finished_jobs` performs the non-blocking probe
on every active slot and marks the slot inactive exactly when the
probe reports that the process exited or was signalled; when the probe
reports anything else — still running, or "no such process" because
the pid was already reaped elsewhere — the slot is left unchanged
(still active). -/
theorem reap_finished_jobs_slotwise (wait : Nat → WaitRes) (jobs : List Job)
    (i : Nat) (hi : i < jobs.length) :
    ((jobs.get ⟨i, hi⟩).active = true →
      wait (jobs.get ⟨i, hi⟩).pid = WaitRes.changed →
      ((reap_finished_jobs wait jobs).get
          ⟨i, by simpa [reap_finished_jobs] using hi⟩).active = false) ∧
    (wait (jobs.get ⟨i, hi⟩).pid ≠ WaitRes.changed →
      (reap_finished_jobs wait jobs).get
          ⟨i, by simpa [reap_finished_jobs] using hi⟩ = jobs.get ⟨i, hi⟩) ∧
    ((jobs.get ⟨i, hi⟩).active = false →
      (reap_finished_jobs wait jobs).get
          ⟨i, by simpa [reap_finished_jobs] using hi⟩ = jobs.get ⟨i, hi⟩) := by
  have hg : (reap_finished_jobs wait jobs).get
      ⟨i, by simpa [reap_finished_jobs] using hi⟩ =
      reapSlot wait (jobs.get ⟨i, hi⟩) := by
    simp [reap_finished_jobs]
  refine ⟨fun hact hch => ?_, fun hch => ?_, fun hin => ?_⟩
  · rw [hg]; exact reapSlot_changed wait _ hact hch
  · rw [hg]; exact reapSlot_not_changed wait _ hch
  · rw [hg]; exact reapSlot_inactive wait _ hin

/-- Witness for C5 amended: with pid 5 reported changed and pid 6
reported "no such process", slot 0 is cleared and slot 1 stays as it
was. -/
theorem reap_finished_jobs_slotwise_witness :
    ((reap_finished_jobs
        (fun p => if p = 5 then WaitRes.changed else WaitRes.noChild)
        [{ pid := 5, active := true, cmdline := "x" },
         { pid := 6, active := true, cmdline := "y" }]).get
        ⟨0, by simp [reap_finished_jobs]⟩).active = false ∧
    (reap_finished_jobs
        (fun p => if p = 5 then WaitRes.changed else WaitRes.noChild)
        [{ pid := 5, active := true, cmdline := "x" },
         { pid := 6, active := true, cmdline := "y" }]).get
        ⟨1, by simp [reap_finished_jobs]⟩ =
      { pid := 6, active := true, cmdline := "y" } := by
  constructor
  · exact (reap_finished_jobs_slotwise
      (fun p => if p = 5 then WaitRes.changed else WaitRes.noChild)
      [{ pid := 5, active := true, cmdline := "x" },
       { pid := 6, active := true, cmdline := "y" }] 0 (by simp)).1 rfl rfl
  · exact (reap_finished_jobs_slotwise
      (fun p => if p = 5 then WaitRes.changed else WaitRes.noChild)
      [{ pid := 5, active := true, cmdline := "x" },
       { pid := 6, active := true, cmdline := "y" }] 1 (by simp)).2.1 (by decide)

/-- C6 counterexample: for an active slot whose stored command text is
empty, `print_jobs` prints `[5] Running  (unknown)` instead of the
record's command text, so the listing line is not of the claimed form
`[<pid>] Running  <command text>`. -/
theorem print_jobs_unknown_line :
    (print_jobs (fun _ => WaitRes.running)
        [{ pid := 5, active := true, cmdline := "" }]).2 =
      ["[5] Running  (unknown)"] ∧
    "[5] Running  (unknown)" ≠ "[5] Running  " ++ "" := by
  exact ⟨rfl, by decide⟩

/-- C6 amended: `print_jobs` first reaps, then prints exactly the
active records in slot order, one line per active job of the form
`[<pid>] Running  <command text>` — with `(unknown)` substituted when
the stored command text is empty — or exactly the single sentinel line
`(no background jobs)` when none is active; every listed job's probe
did not report an exit, so no exited process is reported as running. -/
theorem print_jobs_reap_then_list (wait : Nat → WaitRes) (jobs : List Job) :
    (print_jobs wait jobs).1 = reap_finished_jobs wait jobs ∧
    ((reap_finished_jobs wait jobs).filter (fun j => j.active) = [] →
      (print_jobs wait jobs).2 = ["(no background jobs)"]) ∧
    ((reap_finished_jobs wait jobs).filter (fun j => j.active) ≠ [] →
      (print_jobs wait jobs).2 =
        ((reap_finished_jobs wait jobs).filter (fun j => j.active)).map
          (fun j => "[" ++ toString j.pid ++ "] Running  " ++
            (if j.cmdline = "" then "(unknown)" else j.cmdline))) ∧
    (∀ j ∈ (reap_finished_jobs wait jobs).filter (fun j => j.active),
      j.active = true ∧ wait j.pid ≠ WaitRes.changed) := by
  refine ⟨rfl, fun hemp => ?_, fun hne => ?_, fun j hj => ?_⟩
  · simp [print_jobs, hemp]
  · have hmap : ((reap_finished_jobs wait jobs).filter
        (fun j => j.active)).map jobLine ≠ [] := by
      simpa using hne
    simp only [print_jobs, if_neg hmap]
    rfl
  · have hact : j.active = true := by
      have := List.of_mem_filter hj
      simpa using this
    have hmem : j ∈ reap_finished_jobs wait jobs := List.mem_of_mem_filter hj
    refine ⟨hact, ?_⟩
    obtain ⟨j0, hj0, hj0e⟩ : ∃ a ∈ jobs, reapSlot wait a = j := by
      simpa [reap_finished_jobs] using hmem
    intro hch
    rcases ha : j0.active with _ | _
    · rw [reapSlot_inactive wait j0 ha] at hj0e
      rw [hj0e] at ha
      rw [ha] at hact
      exact Bool.false_ne_true hact
    · by_cases hc : wait j0.pid = WaitRes.changed
      · have : (reapSlot wait j0).active = false := reapSlot_changed wait j0 ha hc
        rw [hj0e] at this
        rw [this] at hact
        exact Bool.false_ne_true hact
      · rw [reapSlot_not_changed wait j0 hc] at hj0e
        rw [hj0e] at hc
        exact hc hch

/-- Witness for C6 amended: one active slot with text `cat f`, one
inactive, probe says still running: exactly one listing line of the
claimed form is printed. -/
theorem print_jobs_reap_then_list_witness :
    (print_jobs (fun _ => WaitRes.running)
        [{ pid := 5, active := true, cmdline := "cat f" },
         { pid := 6, active := false, cmdline := "z" }]).2 =
      ["[5] Running  cat f"] := by
  have h := (print_jobs_reap_then_list (fun _ => WaitRes.running)
      [{ pid := 5, active := true, cmdline := "cat f" },
       { pid := 6, active := false, cmdline := "z" }]).2.2.1 (by decide)
  rw [h]
  rfl

/-- C9 counterexample: when `execute_command` is handed the
defaults-equivalent descriptors (the inherited stdin/stdout), the
parent closes neither of them after spawning — the claim's "whether or
not they were the defaults-equivalent" fails. -/
theorem execute_command_defaults_not_closed :
    STDIN_FILENO ∉
      (execute_command envAllOk ["x"] STDIN_FILENO STDOUT_FILENO false
        pstate0).2.closedLog ∧
    STDOUT_FILENO ∉
      (execute_command envAllOk ["x"] STDIN_FILENO STDOUT_FILENO false
        pstate0).2.closedLog := by
  decide

/-- C9 amended: after spawning — and likewise when spawning fails —
the parent closes exactly those given descriptors that differ from the
inherited stdin/stdout (the defaults-equivalent ones are left alone);
on spawn failure it additionally reports failure and spawns no
process. -/
theorem execute_command_closes_given_fds (env : Env) (args : List String)
    (infd outfd : Nat) (bg : Bool) (s : PState) (h : args ≠ []) :
    ((execute_command env args infd outfd bg s).2.closedLog =
      (s.closedLog ++ (if infd ≠ STDIN_FILENO then [infd] else [])) ++
        (if outfd ≠ STDOUT_FILENO then [outfd] else [])) ∧
    (env.forkOk 0 = false →
      (execute_command env args infd outfd bg s).1 = 1 ∧
      (execute_command env args infd outfd bg s).2.spawned = s.spawned) ∧
    (env.forkOk 0 = true → (execute_command env args infd outfd bg s).1 = 0) := by
  rcases hf : env.forkOk 0 with _ | _ <;>
    rcases hb : bg with _ | _ <;>
      by_cases hi : infd = STDIN_FILENO <;>
        by_cases ho : outfd = STDOUT_FILENO <;>
          simp [execute_command, h, hf, hi, ho, closeFd]

/-- Witness for C9 amended: non-default descriptors 4 and 5 are both
closed after a successful spawn. -/
theorem execute_command_closes_given_fds_witness :
    (execute_command envAllOk ["x"] 4 5 false
        { pstate0 with openFds := [4, 5] }).2.closedLog = [4, 5] ∧
    (execute_command envAllOk ["x"] 4 5 false
        { pstate0 with openFds := [4, 5] }).1 = 0 := by
  have h := execute_command_closes_given_fds envAllOk ["x"] 4 5 false
    { pstate0 with openFds := [4, 5] } (by decide)
  exact ⟨by rw [h.1]; rfl, h.2.2 rfl⟩

/-- C2: evaluation of the code at the failing input.  When `fork`
fails at stage 0 of the three-stage pipeline `a | b | c`, the
`PIPE_FAIL` path reads all `ncmds` entries of the never-written
`malloc`ed pid array (residual contents `7, 8, 9`) and, because each
is `> 0`, performs a blocking `waitpid` on all three — even though no
process of this invocation was ever spawned.  The claim's "blocking
wait on every process id already spawned (and only on already-spawned
process ids)" is violated: the wait set is `[7, 8, 9]`, the spawned
set is empty.  Descriptors are still all closed and failure is
reported. -/
theorem pipe_fail_waits_on_unspawned_garbage :
    (execute envForkFail cmdline3 pstate0).1 = 1 ∧
    (execute envForkFail cmdline3 pstate0).2.spawned = [] ∧
    (execute envForkFail cmdline3 pstate0).2.waited = [7, 8, 9] ∧
    (execute envForkFail cmdline3 pstate0).2.openFds = [] := by
  decide

/-! ### Executor lemmas -/

lemma pipeFail_ret (env : Env) (pipes : List (Nat × Nat)) (ncmds inF outF : Nat)
    (pids : List Nat) (s : PState) :
    (pipeFail env pipes ncmds inF outF pids s).1 = 1 := rfl

lemma spawnLoop_fails_of_empty_stage (env : Env) (bg : Bool)
    (pipes : List (Nat × Nat)) (ncmds outF : Nat) :
    ∀ (rem : List (List String)) (i inF : Nat) (pids : List Nat) (s : PState),
      [] ∈ rem → (spawnLoop env bg pipes ncmds outF rem i inF pids s).1 = 1 := by
  intro rem
  induction rem with
  | nil => intro i inF pids s h; simp at h
  | cons argv rem ih =>
    intro i inF pids s h
    by_cases ha : argv = ([] : List String)
    · simp [spawnLoop, ha, pipeFail_ret]
    · have hmem : ([] : List String) ∈ rem := by
        rcases List.mem_cons.mp h with h1 | h1
        · exact absurd h1.symm ha
        · exact h1
      rcases hf : env.forkOk i with _ | _
      · simp [spawnLoop, ha, hf, pipeFail_ret]
      · simp only [spawnLoop, if_neg ha, hf]
        simp only [Bool.true_eq_false, if_false]
        exact ih (i + 1) _ _ _ hmem

lemma runPipelinePids_fails_of_empty (env : Env) (l : Cmdline) (ncmds : Nat)
    (pipes : List (Nat × Nat)) (inF outF : Nat) (s : PState)
    (h : [] ∈ l.seq) : (runPipelinePids env l ncmds pipes inF outF s).1 = 1 := by
  rcases hm : env.mallocPidsOk with _ | _
  · simp [runPipelinePids, hm]
  · simp only [runPipelinePids, hm, Bool.true_eq_false, if_false]
    exact spawnLoop_fails_of_empty_stage env l.bg pipes ncmds outF l.seq 0 inF [] _ h

lemma runPipelineOut_fails_of_empty (env : Env) (l : Cmdline) (ncmds : Nat)
    (pipes : List (Nat × Nat)) (inF : Nat) (s : PState)
    (h : [] ∈ l.seq) : (runPipelineOut env l ncmds pipes inF s).1 = 1 := by
  rcases ho : l.outp with _ | p
  · simp only [runPipelineOut, ho]
    exact runPipelinePids_fails_of_empty env l ncmds pipes inF STDOUT_FILENO s h
  · simp only [runPipelineOut, ho]
    rcases hok : env.openOutOk with _ | _
    · simp
    · simp only [if_pos rfl]
      exact runPipelinePids_fails_of_empty env l ncmds pipes inF _ _ h

lemma runPipeline_fails_of_empty (env : Env) (l : Cmdline) (ncmds : Nat)
    (s : PState) (h : [] ∈ l.seq) : (runPipeline env l ncmds s).1 = 1 := by
  rcases hm : env.mallocPipesOk with _ | _
  · simp [runPipeline, hm]
  · simp only [runPipeline, hm, Bool.true_eq_false, if_false]
    rcases hmk : (mkPipesAux env (ncmds - 1) 0 [] s).1 with _ | pipes
    · simp [hmk]
    · simp only [hmk]
      rcases hi : l.inp with _ | p
      · exact runPipelineOut_fails_of_empty env l ncmds pipes STDIN_FILENO _ h
      · rcases hok : env.openInOk with _ | _
        · simp
        · simp only [if_pos rfl]
          exact runPipelineOut_fails_of_empty env l ncmds pipes _ _ h

/-- C3 counterexample: a one-stage command line whose only stage has
an empty argv makes `execute` return success (`EXIT_SUCCESS`), not
failure — the stage is silently skipped, contradicting the claim for
`N = 1`. -/
theorem execute_single_empty_stage_returns_success :
    (execute envAllOk { seq := [[]], inp := none, outp := none, bg := false }
        pstate0).1 = 0 ∧
    (execute envAllOk { seq := [[]], inp := none, outp := none, bg := false }
        pstate0).1 ≠ 1 := by
  decide

/-- C3 amended: in a pipeline of `N ≥ 2` stages an empty-argv stage at
any position makes `execute` report failure (under every environment);
but for `N = 1` an empty stage is treated as a silent no-op success —
nothing is spawned and `EXIT_SUCCESS` is returned. -/
theorem empty_stage_handling (env : Env) (l : Cmdline) (s : PState) :
    (2 ≤ l.seq.length → [] ∈ l.seq → (execute env l s).1 = 1) ∧
    (l.seq = [[]] →
      (execute env l s).1 = 0 ∧ (execute env l s).2.spawned = s.spawned) := by
  constructor
  · intro h2 hmem
    have h0 : ¬ l.seq.length = 0 := by omega
    have h1 : ¬ l.seq.length = 1 := by omega
    simp only [execute, if_neg h0, if_neg h1]
    exact runPipeline_fails_of_empty env l _ _ hmem
  · intro hseq
    simp [execute, hseq]

/-- Witness for C3 amended: `a | <empty>` fails, a lone empty stage
succeeds silently. -/
theorem empty_stage_handling_witness :
    (execute envAllOk { seq := [["a"], []], inp := none, outp := none, bg := false }
        pstate0).1 = 1 ∧
    (execute envAllOk { seq := [[]], inp := none, outp := none, bg := false }
        pstate0).1 = 0 := by
  constructor
  · exact (empty_stage_handling envAllOk
      { seq := [["a"], []], inp := none, outp := none, bg := false }
      pstate0).1 (by decide) (by decide)
  · exact ((empty_stage_handling envAllOk
      { seq := [[]], inp := none, outp := none, bg := false }
      pstate0).2 rfl).1

lemma runSingle_eq_delegate (env : Env) (argv : List String) (l : Cmdline)
    (s : PState) (h0 : s.nextFd ≠ STDIN_FILENO) :
    runSingle env argv l s = delegateToSingle env argv l s := by
  rcases hi : l.inp with _ | pi <;> rcases ho : l.outp with _ | po <;>
    rcases hio : env.openInOk with _ | _ <;>
      rcases hoo : env.openOutOk with _ | _ <;>
        simp [runSingle, runSingleOut, delegateToSingle, resolveEndRedirections,
          hi, ho, hio, hoo, openNew, h0]

/-- C8: with zero stages `execute` is a no-op success (only the
unconditional entry reap touches the state); with exactly one
non-builtin stage it behaves identically to resolving the end
redirections and then calling the Single-Command Executor
`execute_command` directly with the resolved descriptors and
background flag.  (`STDIN_FILENO < s.nextFd` states that the standard
descriptors are already occupied, as in a real process.) -/
theorem execute_zero_and_single_stage (env : Env) (l : Cmdline) (s : PState) :
    (l.seq.length = 0 →
      execute env l s =
        (0, { s with jobs := reap_finished_jobs env.wait s.jobs })) ∧
    (∀ argv, l.seq = [argv] → argv ≠ [] → argv.get? 0 ≠ some "jobs" →
      STDIN_FILENO < s.nextFd →
      execute env l s =
        delegateToSingle env argv l
          { s with jobs := reap_finished_jobs env.wait s.jobs }) := by
  constructor
  · intro h
    simp [execute, h]
  · intro argv hseq hne hjobs hfd
    have h0 : s.nextFd ≠ STDIN_FILENO := Ne.symm (Nat.ne_of_lt hfd)
    simp only [execute, hseq, List.length_singleton, one_ne_zero, if_false,
      if_pos rfl, List.get?, Option.getD_some]
    rw [if_neg hne, if_neg hjobs]
    exact runSingle_eq_delegate env argv l _ h0

/-- Witness for C8: the empty command line is a no-op success, and a
single `cat` stage with both redirections equals the spec-side
delegation, at concrete inputs. -/
theorem execute_zero_and_single_stage_witness :
    execute envAllOk { seq := [], inp := none, outp := none, bg := false }
        pstate0 =
      (0, { pstate0 with
              jobs := reap_finished_jobs envAllOk.wait pstate0.jobs }) ∧
    execute envAllOk
        { seq := [["cat"]], inp := some "f", outp := some "g", bg := false }
        pstate0 =
      delegateToSingle envAllOk ["cat"]
        { seq := [["cat"]], inp := some "f", outp := some "g", bg := false }
        { pstate0 with
            jobs := reap_finished_jobs envAllOk.wait pstate0.jobs } := by
  constructor
  · exact (execute_zero_and_single_stage envAllOk
      { seq := [], inp := none, outp := none, bg := false } pstate0).1 rfl
  · exact (execute_zero_and_single_stage envAllOk
      { seq := [["cat"]], inp := some "f", outp := some "g", bg := false }
      pstate0).2 ["cat"] rfl (by decide) (by decide) (by decide)

lemma procObs_closeFd (fd : Nat) (s : PState) :
    (closeFd fd s).procObs = s.procObs := rfl

lemma procObs_closePipes : ∀ (ps : List (Nat × Nat)) (s : PState),
    (closePipes ps s).procObs = s.procObs
  | [], _ => rfl
  | _ :: ps, _ => procObs_closePipes ps _

lemma procObs_mkPipesAux (env : Env) : ∀ (todo i : Nat)
    (acc : List (Nat × Nat)) (s : PState),
    ((mkPipesAux env todo i acc s).2).procObs = s.procObs := by
  intro todo
  induction todo with
  | zero => intro i acc s; rfl
  | succ todo ih =>
    intro i acc s
    rcases hp : env.pipeOk i with _ | _
    · simp [mkPipesAux, hp, procObs_closePipes]
    · simp only [mkPipesAux, hp, if_pos rfl]
      exact ih (i + 1) _ _

lemma mkPipesAux_some (env : Env) (hp : ∀ k, env.pipeOk k = true) :
    ∀ (todo i : Nat) (acc : List (Nat × Nat)) (s : PState),
    ∃ pipes, (mkPipesAux env todo i acc s).1 = some pipes := by
  intro todo
  induction todo with
  | zero => intro i acc s; exact ⟨acc, rfl⟩
  | succ todo ih =>
    intro i acc s
    simp only [mkPipesAux, hp i, if_pos rfl]
    exact ih (i + 1) _ _

lemma spawnLoop_bg_success (env : Env) (pipes : List (Nat × Nat))
    (ncmds outF : Nat) (hf : ∀ j, env.forkOk j = true) :
    ∀ (rem : List (List String)) (i inF : Nat) (pids : List Nat) (s : PState),
      (∀ a ∈ rem, a ≠ []) →
      (spawnLoop env true pipes ncmds outF rem i inF pids s).1 = 0 ∧
      (spawnLoop env true pipes ncmds outF rem i inF pids s).2.spawned =
        s.spawned ++ (List.range' i rem.length).map env.forkPid ∧
      (spawnLoop env true pipes ncmds outF rem i inF pids s).2.jobs =
        (add_job s.jobs
          (((pids ++ (List.range' i rem.length).map env.forkPid).get? 0).getD 0)
          env.lastCmdline).2 := by
  intro rem
  induction rem with
  | nil =>
    intro i inF pids s _
    have hobs : ((closePipes pipes s).procObs = s.procObs) := procObs_closePipes pipes s
    by_cases ho : outF ≠ STDOUT_FILENO
    · simp only [spawnLoop, if_pos ho]
      have hobs2 : (closeFd outF (closePipes pipes s)).procObs = s.procObs := by
        rw [procObs_closeFd]; exact hobs
      refine ⟨rfl, ?_, ?_⟩
      · have := congrArg (fun x => x.1) hobs2
        simpa using this
      · have hj := congrArg (fun x => x.2.2.1) hobs2
        simp only [PState.procObs] at hj
        simp [hj]
    · simp only [spawnLoop, if_neg ho]
      refine ⟨rfl, ?_, ?_⟩
      · have := congrArg (fun x => x.1) hobs
        simpa using this
      · have hj := congrArg (fun x => x.2.2.1) hobs
        simp only [PState.procObs] at hj
        simp [hj]
  | cons argv rem ih =>
    intro i inF pids s hne
    have ha : argv ≠ [] := hne argv (List.mem_cons_self argv rem)
    have hne' : ∀ a ∈ rem, a ≠ [] :=
      fun a haa => hne a (List.mem_cons_of_mem argv haa)
    have hl : pids ++ [env.forkPid i] ++
        (List.range' (i + 1) rem.length).map env.forkPid =
        pids ++ (List.range' i (rem.length + 1)).map env.forkPid := by
      rw [List.append_assoc, List.range'_succ, List.map_cons]
      rfl
    have step : ∀ (inF' : Nat) (s' : PState),
        s'.spawned = s.spawned ++ [env.forkPid i] → s'.jobs = s.jobs →
        (spawnLoop env true pipes ncmds outF rem (i + 1) inF'
            (pids ++ [env.forkPid i]) s').1 = 0 ∧
        (spawnLoop env true pipes ncmds outF rem (i + 1) inF'
            (pids ++ [env.forkPid i]) s').2.spawned =
          s.spawned ++ (List.range' i (rem.length + 1)).map env.forkPid ∧
        (spawnLoop env true pipes ncmds outF rem (i + 1) inF'
            (pids ++ [env.forkPid i]) s').2.jobs =
          (add_job s.jobs
            (((pids ++ (List.range' i (rem.length + 1)).map env.forkPid).get? 0).getD 0)
            env.lastCmdline).2 := by
      intro inF' s' hsp hj
      obtain ⟨r1, r2, r3⟩ := ih (i + 1) inF' (pids ++ [env.forkPid i]) s' hne'
      refine ⟨r1, ?_, ?_⟩
      · rw [r2, hsp, List.range'_succ, List.map_cons, List.append_assoc]
        rfl
      · rw [r3, hj, hl]
    simp only [spawnLoop, if_neg ha, hf i, Bool.true_eq_false, if_false,
      List.length_cons]
    rcases Nat.eq_zero_or_pos i with hi0 | hipos
    · subst hi0
      by_cases hin : inF = STDIN_FILENO
      · simp only [Nat.lt_irrefl, if_false, hin, ne_eq, not_true_eq_false,
          and_false, if_false]
        exact step STDIN_FILENO { s with spawned := s.spawned ++ [env.forkPid 0] }
          rfl rfl
      · simp only [Nat.lt_irrefl, if_false, ne_eq, hin, not_false_eq_true,
          and_true, true_and, if_true, if_pos]
        exact step STDIN_FILENO
          (closeFd inF { s with spawned := s.spawned ++ [env.forkPid 0] })
          (by simp [closeFd]) (by simp [closeFd])
    · have hne0 : ¬ (i = 0 ∧ inF ≠ STDIN_FILENO) := by
        intro hcon
        omega
      simp only [if_pos hipos, if_neg hne0]
      exact step inF
        (closeFd ((pipes.get? (i - 1)).getD (0, 0)).2
          { s with spawned := s.spawned ++ [env.forkPid i] })
        (by simp [closeFd]) (by simp [closeFd])

lemma first_pid_of_range (env : Env) (n : Nat) (h : n ≠ 0) :
    ((([] : List Nat) ++ (List.range' 0 n).map env.forkPid).get? 0).getD 0 =
      env.forkPid 0 := by
  cases n with
  | zero => omega
  | succ n => simp [List.range'_succ]

lemma runPipelinePids_bg_success (env : Env) (l : Cmdline) (ncmds : Nat)
    (pipes : List (Nat × Nat)) (inF outF : Nat) (s : PState)
    (hne : ∀ a ∈ l.seq, a ≠ []) (hf : ∀ j, env.forkOk j = true)
    (hm2 : env.mallocPidsOk = true) (hbg : l.bg = true) (h1 : l.seq ≠ []) :
    (runPipelinePids env l ncmds pipes inF outF s).1 = 0 ∧
    (runPipelinePids env l ncmds pipes inF outF s).2.spawned =
      s.spawned ++ (List.range' 0 l.seq.length).map env.forkPid ∧
    (runPipelinePids env l ncmds pipes inF outF s).2.jobs =
      (add_job s.jobs (env.forkPid 0) env.lastCmdline).2 := by
  simp only [runPipelinePids, hm2, Bool.true_eq_false, if_false, hbg]
  obtain ⟨r1, r2, r3⟩ :=
    spawnLoop_bg_success env pipes ncmds outF hf l.seq 0 inF [] s hne
  refine ⟨r1, r2, ?_⟩
  rw [r3, first_pid_of_range env l.seq.length
    (fun hlen => h1 (List.eq_nil_of_length_eq_zero hlen))]

lemma runPipelineOut_bg_success (env : Env) (l : Cmdline) (ncmds : Nat)
    (pipes : List (Nat × Nat)) (inF : Nat) (s : PState)
    (hne : ∀ a ∈ l.seq, a ≠ []) (hf : ∀ j, env.forkOk j = true)
    (hoo : env.openOutOk = true) (hm2 : env.mallocPidsOk = true)
    (hbg : l.bg = true) (h1 : l.seq ≠ []) :
    (runPipelineOut env l ncmds pipes inF s).1 = 0 ∧
    (runPipelineOut env l ncmds pipes inF s).2.spawned =
      s.spawned ++ (List.range' 0 l.seq.length).map env.forkPid ∧
    (runPipelineOut env l ncmds pipes inF s).2.jobs =
      (add_job s.jobs (env.forkPid 0) env.lastCmdline).2 := by
  rcases ho : l.outp with _ | p
  · simp only [runPipelineOut, ho]
    exact runPipelinePids_bg_success env l ncmds pipes inF STDOUT_FILENO s
      hne hf hm2 hbg h1
  · simp only [runPipelineOut, ho, hoo, if_pos rfl]
    exact runPipelinePids_bg_success env l ncmds pipes inF _ _ hne hf hm2 hbg h1

lemma runPipeline_bg_success (env : Env) (l : Cmdline) (ncmds : Nat)
    (s : PState)
    (hne : ∀ a ∈ l.seq, a ≠ []) (hp : ∀ k, env.pipeOk k = true)
    (hf : ∀ j, env.forkOk j = true) (hoi : env.openInOk = true)
    (hoo : env.openOutOk = true) (hm1 : env.mallocPipesOk = true)
    (hm2 : env.mallocPidsOk = true) (hbg : l.bg = true) (h1 : l.seq ≠ []) :
    (runPipeline env l ncmds s).1 = 0 ∧
    (runPipeline env l ncmds s).2.spawned =
      s.spawned ++ (List.range' 0 l.seq.length).map env.forkPid ∧
    (runPipeline env l ncmds s).2.jobs =
      (add_job s.jobs (env.forkPid 0) env.lastCmdline).2 := by
  obtain ⟨pipes, hpipes⟩ := mkPipesAux_some env hp (ncmds - 1) 0 [] s
  have hobs := procObs_mkPipesAux env (ncmds - 1) 0 [] s
  have hsp : ((mkPipesAux env (ncmds - 1) 0 [] s).2).spawned = s.spawned :=
    congrArg (fun x => x.1) hobs
  have hjb : ((mkPipesAux env (ncmds - 1) 0 [] s).2).jobs = s.jobs :=
    congrArg (fun x => x.2.2.1) hobs
  simp only [runPipeline, hm1, Bool.true_eq_false, if_false, hpipes]
  rcases hi : l.inp with _ | p
  · obtain ⟨r1, r2, r3⟩ := runPipelineOut_bg_success env l ncmds pipes
      STDIN_FILENO _ hne hf hoo hm2 hbg h1
    exact ⟨r1, by rw [r2, hsp], by rw [r3, hjb]⟩
  · simp only [hoi, eq_self_iff_true, if_true]
    obtain ⟨r1, r2, r3⟩ := runPipelineOut_bg_success env l ncmds pipes
      _ (openNew (mkPipesAux env (ncmds - 1) 0 [] s).2).2 hne hf hoo hm2 hbg h1
    refine ⟨r1, ?_, ?_⟩
    · rw [r2]
      show ((mkPipesAux env (ncmds - 1) 0 [] s).2).spawned ++ _ = _
      rw [hsp]
    · rw [r3]
      show (add_job ((mkPipesAux env (ncmds - 1) 0 [] s).2).jobs _ _).2 = _
      rw [hjb]

/-- C7: a background pipeline of `N ≥ 2` stages in which every stage
spawns successfully registers exactly one job: the first stage's pid
(`pids[0]`) under the shell-global full command-line text
`g_last_cmdline`; the table mutation is exactly that single `add_job`
call, so the remaining stages' pids (all of which are spawned, as the
`spawned` equation shows) are never registered or tracked. -/
theorem background_pipeline_registers_first_stage (env : Env) (l : Cmdline)
    (s : PState)
    (h2 : 2 ≤ l.seq.length) (hne : ∀ a ∈ l.seq, a ≠ [])
    (hp : ∀ k, env.pipeOk k = true) (hf : ∀ j, env.forkOk j = true)
    (hoi : env.openInOk = true) (hoo : env.openOutOk = true)
    (hm1 : env.mallocPipesOk = true) (hm2 : env.mallocPidsOk = true)
    (hbg : l.bg = true) :
    (execute env l s).1 = 0 ∧
    (execute env l s).2.spawned =
      s.spawned ++ (List.range' 0 l.seq.length).map env.forkPid ∧
    (execute env l s).2.jobs =
      (add_job (reap_finished_jobs env.wait s.jobs)
        (env.forkPid 0) env.lastCmdline).2 := by
  have h0 : ¬ l.seq.length = 0 := by omega
  have h1 : ¬ l.seq.length = 1 := by omega
  have h1' : l.seq ≠ [] := fun hcon => h0 (by rw [hcon]; rfl)
  simp only [execute, if_neg h0, if_neg h1]
  exact runPipeline_bg_success env l l.seq.length
    { s with jobs := reap_finished_jobs env.wait s.jobs }
    hne hp hf hoi hoo hm1 hm2 hbg h1'

/-- Witness for C7: `sleep 5 | cat` in background spawns pids 100 and
101 and registers only pid 100, under the full command-line text. -/
theorem background_pipeline_registers_first_stage_witness :
    (execute envAllOk
        { seq := [["sleep", "5"], ["cat"]], inp := none, outp := none, bg := true }
        pstate0).2.spawned = [100, 101] ∧
    (execute envAllOk
        { seq := [["sleep", "5"], ["cat"]], inp := none, outp := none, bg := true }
        pstate0).2.jobs =
      (add_job (reap_finished_jobs envAllOk.wait pstate0.jobs)
        (envAllOk.forkPid 0) envAllOk.lastCmdline).2 := by
  have h := background_pipeline_registers_first_stage envAllOk
    { seq := [["sleep", "5"], ["cat"]], inp := none, outp := none, bg := true }
    pstate0 (by decide) (by decide) (fun k => rfl) (fun j => rfl)
    rfl rfl rfl rfl rfl
  exact ⟨by rw [h.2.1]; rfl, h.2.2⟩

/-! ### Descriptor-leak lemmas -/

lemma mem_closeFd (x fd : Nat) (s : PState) :
    x ∈ (closeFd fd s).openFds ↔ x ∈ s.openFds ∧ x ≠ fd := by
  simp [closeFd]

lemma nextFd_closeFd (fd : Nat) (s : PState) :
    (closeFd fd s).nextFd = s.nextFd := rfl

lemma mem_closePipes (x : Nat) : ∀ (ps : List (Nat × Nat)) (s : PState),
    x ∈ (closePipes ps s).openFds ↔ x ∈ s.openFds ∧ x ∉ pipeFds ps := by
  intro ps
  induction ps with
  | nil => intro s; simp [closePipes, pipeFds]
  | cons p ps ih =>
    intro s
    have hstep : closePipes (p :: ps) s =
        closePipes ps (closeFd p.2 (closeFd p.1 s)) := rfl
    rw [hstep, ih, mem_closeFd, mem_closeFd]
    simp [pipeFds]
    tauto

lemma nextFd_closePipes : ∀ (ps : List (Nat × Nat)) (s : PState),
    (closePipes ps s).nextFd = s.nextFd := by
  intro ps
  induction ps with
  | nil => intro s; rfl
  | cons p ps ih => intro s; exact ih _

lemma waitLoop_openFds (env : Env) (pids : List Nat) :
    ∀ (ts : List Nat) (s : PState),
    ((ts.foldl (fun s t =>
        let v : Int :=
          match pids.get? t with
          | some p => (p : Int)
          | none => env.pidsGarbage t
        if 0 < v then { s with waited := s.waited ++ [v] } else s) s)).openFds =
      s.openFds := by
  intro ts
  induction ts with
  | nil => intro s; rfl
  | cons t ts ih =>
    intro s
    rw [List.foldl_cons, ih]
    split <;> (dsimp only; split <;> rfl)

lemma pipeFail_no_leak (env : Env) (pipes : List (Nat × Nat))
    (ncmds inF outF : Nat) (pids : List Nat) (s : PState)
    (hinv : ∀ x ∈ s.openFds, x ∈ pipeFds pipes ∨
      (x = inF ∧ inF ≠ STDIN_FILENO) ∨ (x = outF ∧ outF ≠ STDOUT_FILENO)) :
    (pipeFail env pipes ncmds inF outF pids s).2.openFds = [] := by
  have hfold := waitLoop_openFds env pids (List.range ncmds)
  rw [List.eq_nil_iff_forall_not_mem]
  intro x hx
  simp only [pipeFail] at hx
  rw [hfold] at hx
  by_cases ho : outF = STDOUT_FILENO
  · rw [if_neg (fun hc => hc ho)] at hx
    by_cases hi : inF = STDIN_FILENO
    · rw [if_neg (fun hc => hc hi), mem_closePipes] at hx
      rcases hinv x hx.1 with h | h | h
      · exact hx.2 h
      · exact h.2 hi
      · exact h.2 ho
    · rw [if_pos hi, mem_closeFd, mem_closePipes] at hx
      rcases hinv x hx.1.1 with h | h | h
      · exact hx.1.2 h
      · exact hx.2 h.1
      · exact h.2 ho
  · rw [if_pos ho, mem_closeFd] at hx
    by_cases hi : inF = STDIN_FILENO
    · rw [if_neg (fun hc => hc hi), mem_closePipes] at hx
      rcases hinv x hx.1.1 with h | h | h
      · exact hx.1.2 h
      · exact h.2 hi
      · exact hx.2 h.1
    · rw [if_pos hi, mem_closeFd, mem_closePipes] at hx
      rcases hinv x hx.1.1.1 with h | h | h
      · exact hx.1.1.2 h
      · exact hx.1.2 h.1
      · exact hx.2 h.1

lemma spawnLoop_no_leak (env : Env) (bg : Bool) (pipes : List (Nat × Nat))
    (ncmds outF : Nat) :
    ∀ (rem : List (List String)) (i inF : Nat) (pids : List Nat) (s : PState),
      (∀ x ∈ s.openFds, x ∈ pipeFds pipes ∨
        (x = inF ∧ inF ≠ STDIN_FILENO) ∨ (x = outF ∧ outF ≠ STDOUT_FILENO)) →
      ((rem ≠ [] ∧ i = 0) ∨ inF = STDIN_FILENO) →
      (spawnLoop env bg pipes ncmds outF rem i inF pids s).2.openFds = [] := by
  intro rem
  induction rem with
  | nil =>
    intro i inF pids s hinv hse
    have hin : inF = STDIN_FILENO := by
      rcases hse with ⟨hc, _⟩ | h
      · exact absurd rfl hc
      · exact h
    have hs2 : (if outF ≠ STDOUT_FILENO
        then closeFd outF (closePipes pipes s)
        else closePipes pipes s).openFds = [] := by
      rw [List.eq_nil_iff_forall_not_mem]
      intro x hx
      by_cases ho : outF = STDOUT_FILENO
      · rw [if_neg (fun hc => hc ho), mem_closePipes] at hx
        rcases hinv x hx.1 with h | h | h
        · exact hx.2 h
        · exact h.2 hin
        · exact h.2 ho
      · rw [if_pos ho, mem_closeFd, mem_closePipes] at hx
        rcases hinv x hx.1.1 with h | h | h
        · exact hx.1.2 h
        · exact h.2 hin
        · exact hx.2 h.1
    simp only [spawnLoop]
    split <;> exact hs2
  | cons argv rem ih =>
    intro i inF pids s hinv hse
    by_cases ha : argv = []
    · simp only [spawnLoop, if_pos ha]
      exact pipeFail_no_leak env pipes ncmds inF outF pids s hinv
    · rcases hf : env.forkOk i with _ | _
      · simp only [spawnLoop, if_neg ha, hf, if_true]
        exact pipeFail_no_leak env pipes ncmds inF outF pids s hinv
      · simp only [spawnLoop, if_neg ha, hf, Bool.true_eq_false, if_false]
        rcases Nat.eq_zero_or_pos i with hi0 | hipos
        · subst hi0
          by_cases hin : inF = STDIN_FILENO
          · simp only [Nat.lt_irrefl, if_false, hin, ne_eq, not_true_eq_false,
              and_false]
            refine ih 1 STDIN_FILENO (pids ++ [env.forkPid 0])
              { s with spawned := s.spawned ++ [env.forkPid 0] } ?_ (Or.inr rfl)
            intro x hx
            rcases hinv x hx with h | h | h
            · exact Or.inl h
            · exact absurd hin h.2
            · exact Or.inr (Or.inr h)
          · simp only [Nat.lt_irrefl, if_false, ne_eq, hin, not_false_eq_true,
              and_true, true_and, if_true, if_pos]
            refine ih 1 STDIN_FILENO (pids ++ [env.forkPid 0])
              (closeFd inF { s with spawned := s.spawned ++ [env.forkPid 0] })
              ?_ (Or.inr rfl)
            intro x hx
            rw [mem_closeFd] at hx
            rcases hinv x hx.1 with h | h | h
            · exact Or.inl h
            · exact absurd h.1 hx.2
            · exact Or.inr (Or.inr h)
        · have hin : inF = STDIN_FILENO := by
            rcases hse with ⟨_, h0⟩ | h
            · omega
            · exact h
          have hne0 : ¬ (i = 0 ∧ inF ≠ STDIN_FILENO) := by
            intro hcon
            omega
          simp only [if_pos hipos, if_neg hne0]
          refine ih (i + 1) inF (pids ++ [env.forkPid i])
            (closeFd ((pipes.get? (i - 1)).getD (0, 0)).2
              { s with spawned := s.spawned ++ [env.forkPid i] })
            ?_ (Or.inr hin)
          intro x hx
          rw [mem_closeFd] at hx
          exact hinv x hx.1

lemma pipeFds_append (a b : List (Nat × Nat)) :
    pipeFds (a ++ b) = pipeFds a ++ pipeFds b := by
  simp [pipeFds]

lemma openNew_openFds (s : PState) :
    ((openNew s).2).openFds = s.openFds ++ [s.nextFd] := rfl

lemma mkPipesAux_none_subset (env : Env) : ∀ (todo i : Nat)
    (acc : List (Nat × Nat)) (s : PState),
    (mkPipesAux env todo i acc s).1 = none →
    ∀ x ∈ ((mkPipesAux env todo i acc s).2).openFds,
      x ∈ s.openFds ∧ x ∉ pipeFds acc := by
  intro todo
  induction todo with
  | zero =>
    intro i acc s hnone
    exact absurd hnone (by simp [mkPipesAux])
  | succ todo ih =>
    intro i acc s hnone
    rcases hp : env.pipeOk i with _ | _
    · simp only [mkPipesAux, hp, Bool.false_eq_true, if_false]
      intro x hx
      rw [mem_closePipes] at hx
      exact hx
    · simp only [mkPipesAux, hp, if_true] at hnone ⊢
      intro x hx
      have hih := ih (i + 1) (acc ++ [((openNew s).1, (openNew (openNew s).2).1)])
        (openNew (openNew s).2).2 hnone x hx
      have hfds : ((openNew (openNew s).2).2).openFds =
          s.openFds ++ [s.nextFd, s.nextFd + 1] := by
        simp [openNew]
      rw [hfds] at hih
      rw [pipeFds_append] at hih
      have hx1 : x ∈ s.openFds := by
        rcases List.mem_append.mp hih.1 with h | h
        · exact h
        · exfalso
          apply hih.2
          rw [List.mem_append]
          right
          simp only [openNew, pipeFds, List.flatMap_cons, List.flatMap_nil]
          simpa using h
      refine ⟨hx1, fun hc => hih.2 ?_⟩
      rw [List.mem_append]
      exact Or.inl hc

lemma mkPipesAux_some_subset (env : Env) : ∀ (todo i : Nat)
    (acc : List (Nat × Nat)) (s : PState) (pipes : List (Nat × Nat)),
    (mkPipesAux env todo i acc s).1 = some pipes →
    (∀ x ∈ ((mkPipesAux env todo i acc s).2).openFds,
        x ∈ s.openFds ∨ x ∈ pipeFds pipes) ∧
    (∀ x ∈ pipeFds acc, x ∈ pipeFds pipes) := by
  intro todo
  induction todo with
  | zero =>
    intro i acc s pipes hsome
    have hacc : acc = pipes := by simpa [mkPipesAux] using hsome
    subst hacc
    exact ⟨fun x hx => Or.inl hx, fun x hx => hx⟩
  | succ todo ih =>
    intro i acc s pipes hsome
    rcases hp : env.pipeOk i with _ | _
    · rw [show (mkPipesAux env (todo + 1) i acc s) =
          (none, closePipes acc s) by simp [mkPipesAux, hp]] at hsome
      exact absurd hsome (by simp)
    · simp only [mkPipesAux, hp, if_true] at hsome ⊢
      have hih := ih (i + 1) (acc ++ [((openNew s).1, (openNew (openNew s).2).1)])
        (openNew (openNew s).2).2 pipes hsome
      have hsub : ∀ x ∈ pipeFds acc, x ∈ pipeFds pipes := by
        intro x hx
        exact hih.2 x (by rw [pipeFds_append, List.mem_append]; exact Or.inl hx)
      refine ⟨?_, hsub⟩
      intro x hx
      rcases hih.1 x hx with h | h
      · have hfds : ((openNew (openNew s).2).2).openFds =
            s.openFds ++ [s.nextFd, s.nextFd + 1] := by
          simp [openNew]
        rw [hfds, List.mem_append] at h
        rcases h with h | h
        · exact Or.inl h
        · right
          apply hih.2
          rw [pipeFds_append, List.mem_append]
          right
          simp only [openNew, pipeFds, List.flatMap_cons, List.flatMap_nil]
          simpa using h
      · exact Or.inr h

lemma nextFd_mkPipesAux_mono (env : Env) : ∀ (todo i : Nat)
    (acc : List (Nat × Nat)) (s : PState),
    s.nextFd ≤ ((mkPipesAux env todo i acc s).2).nextFd := by
  intro todo
  induction todo with
  | zero => intro i acc s; exact Nat.le_refl _
  | succ todo ih =>
    intro i acc s
    rcases hp : env.pipeOk i with _ | _
    · simp only [mkPipesAux, hp, Bool.false_eq_true, if_false]
      rw [nextFd_closePipes]
    · simp only [mkPipesAux, hp, if_true]
      have := ih (i + 1) (acc ++ [((openNew s).1, (openNew (openNew s).2).1)])
        (openNew (openNew s).2).2
      have hstep : ((openNew (openNew s).2).2).nextFd = s.nextFd + 2 := rfl
      omega

lemma execute_command_openFds_subset (env : Env) (args : List String)
    (infd outfd : Nat) (bg : Bool) (s : PState) (h : args ≠ []) (x : Nat)
    (hx : x ∈ (execute_command env args infd outfd bg s).2.openFds) :
    x ∈ s.openFds ∧ (infd ≠ STDIN_FILENO → x ≠ infd) ∧
      (outfd ≠ STDOUT_FILENO → x ≠ outfd) := by
  rcases hf : env.forkOk 0 with _ | _ <;> rcases hb : bg with _ | _ <;>
    by_cases hi : infd = STDIN_FILENO <;> by_cases ho : outfd = STDOUT_FILENO <;>
      simp only [execute_command, if_neg h, hf, hb, hi, ho, ne_eq,
        not_true_eq_false, not_false_eq_true, if_true, if_false, ite_true,
        ite_false, Bool.false_eq_true, Bool.true_eq_false,
        not_true, not_false_iff] at hx <;>
      first
      | (simp only [mem_closeFd] at hx; tauto)
      | tauto

lemma runSingle_no_leak (env : Env) (argv : List String) (l : Cmdline)
    (s : PState) (ha : argv ≠ []) (hopen : s.openFds = [])
    (hfd : STDOUT_FILENO < s.nextFd) :
    (runSingle env argv l s).2.openFds = [] := by
  have h0 : s.nextFd ≠ STDIN_FILENO := by
    simp only [STDIN_FILENO]
    simp only [STDOUT_FILENO] at hfd
    omega
  have h1 : s.nextFd ≠ STDOUT_FILENO := by
    simp only [STDOUT_FILENO] at hfd ⊢
    omega
  have h0' : s.nextFd + 1 ≠ STDIN_FILENO := by
    simp only [STDIN_FILENO]
    omega
  have h1' : s.nextFd + 1 ≠ STDOUT_FILENO := by
    simp only [STDOUT_FILENO] at hfd ⊢
    omega
  rcases hi : l.inp with _ | pi
  · rcases ho : l.outp with _ | po
    · simp only [runSingle, runSingleOut, hi, ho]
      rw [List.eq_nil_iff_forall_not_mem]
      intro x hx
      have hsub := execute_command_openFds_subset env argv STDIN_FILENO
        STDOUT_FILENO l.bg s ha x hx
      rw [hopen] at hsub
      exact List.not_mem_nil x hsub.1
    · rcases hok : env.openOutOk with _ | _
      · simp only [runSingle, runSingleOut, hi, ho, hok, Bool.false_eq_true,
          if_false]
        simp [hopen]
      · simp only [runSingle, runSingleOut, hi, ho, hok, if_true]
        rw [List.eq_nil_iff_forall_not_mem]
        intro x hx
        have hsub := execute_command_openFds_subset env argv STDIN_FILENO
          (openNew s).1 l.bg (openNew s).2 ha x hx
        rw [openNew_openFds, hopen] at hsub
        have hxx : x = s.nextFd := by simpa using hsub.1
        exact hsub.2.2 h1 (by simpa [openNew] using hxx)
  · rcases hok : env.openInOk with _ | _
    · simp only [runSingle, hi, hok, Bool.false_eq_true, if_false]
      exact hopen
    · simp only [runSingle, hi, hok, if_true]
      rcases ho : l.outp with _ | po
      · simp only [runSingleOut, ho]
        rw [List.eq_nil_iff_forall_not_mem]
        intro x hx
        have hsub := execute_command_openFds_subset env argv (openNew s).1
          STDOUT_FILENO l.bg (openNew s).2 ha x hx
        rw [openNew_openFds, hopen] at hsub
        have hxx : x = s.nextFd := by simpa using hsub.1
        exact hsub.2.1 h0 (by simpa [openNew] using hxx)
      · rcases hok2 : env.openOutOk with _ | _
        · simp only [runSingleOut, ho, hok2, Bool.false_eq_true, if_false]
          have : (openNew s).1 ≠ STDIN_FILENO := h0
          rw [if_pos this]
          rw [List.eq_nil_iff_forall_not_mem]
          intro x hx
          rw [mem_closeFd, openNew_openFds, hopen] at hx
          have hxx : x = s.nextFd := by simpa using hx.1
          exact hx.2 hxx
        · simp only [runSingleOut, ho, hok2, if_true]
          rw [List.eq_nil_iff_forall_not_mem]
          intro x hx
          have hsub := execute_command_openFds_subset env argv (openNew s).1
            (openNew (openNew s).2).1 l.bg (openNew (openNew s).2).2 ha x hx
          have hfds : ((openNew (openNew s).2).2).openFds =
              s.openFds ++ [s.nextFd, s.nextFd + 1] := by
            simp [openNew]
          rw [hfds, hopen] at hsub
          have hxx : x = s.nextFd ∨ x = s.nextFd + 1 := by
            simpa using hsub.1
          rcases hxx with hxx | hxx
          · exact hsub.2.1 h0 (by simpa [openNew] using hxx)
          · exact hsub.2.2 h1' (by simpa [openNew] using hxx)

lemma runPipelinePids_no_leak (env : Env) (l : Cmdline) (ncmds : Nat)
    (pipes : List (Nat × Nat)) (inF outF : Nat) (s : PState)
    (h1 : l.seq ≠ [])
    (hinv : ∀ x ∈ s.openFds, x ∈ pipeFds pipes ∨
      (x = inF ∧ inF ≠ STDIN_FILENO) ∨ (x = outF ∧ outF ≠ STDOUT_FILENO)) :
    (runPipelinePids env l ncmds pipes inF outF s).2.openFds = [] := by
  rcases hm : env.mallocPidsOk with _ | _
  · simp only [runPipelinePids, hm, Bool.false_eq_true, eq_self_iff_true, if_true]
    rw [List.eq_nil_iff_forall_not_mem]
    intro x hx
    rw [mem_closePipes] at hx
    by_cases hof : outF = STDOUT_FILENO <;> by_cases hif : inF = STDIN_FILENO
    · rw [if_neg (fun hc => hc hof), if_neg (fun hc => hc hif)] at hx
      rcases hinv x hx.1 with h | h | h
      · exact hx.2 h
      · exact h.2 hif
      · exact h.2 hof
    · rw [if_neg (fun hc => hc hof), if_pos hif, mem_closeFd] at hx
      rcases hinv x hx.1.1 with h | h | h
      · exact hx.2 h
      · exact hx.1.2 h.1
      · exact h.2 hof
    · rw [if_pos hof, mem_closeFd, if_neg (fun hc => hc hif)] at hx
      rcases hinv x hx.1.1 with h | h | h
      · exact hx.2 h
      · exact h.2 hif
      · exact hx.1.2 h.1
    · rw [if_pos hof, mem_closeFd, if_pos hif, mem_closeFd] at hx
      rcases hinv x hx.1.1.1 with h | h | h
      · exact hx.2 h
      · exact hx.1.1.2 h.1
      · exact hx.1.2 h.1
  · simp only [runPipelinePids, hm, Bool.true_eq_false, if_false]
    exact spawnLoop_no_leak env l.bg pipes ncmds outF l.seq 0 inF [] s hinv
      (Or.inl ⟨h1, rfl⟩)

lemma runPipelineOut_no_leak (env : Env) (l : Cmdline) (ncmds : Nat)
    (pipes : List (Nat × Nat)) (inF : Nat) (s : PState)
    (h1 : l.seq ≠ [])
    (hinv : ∀ x ∈ s.openFds, x ∈ pipeFds pipes ∨ (x = inF ∧ inF ≠ STDIN_FILENO))
    (hfd : STDOUT_FILENO < s.nextFd) :
    (runPipelineOut env l ncmds pipes inF s).2.openFds = [] := by
  have h1' : s.nextFd ≠ STDOUT_FILENO := by
    simp only [STDOUT_FILENO] at hfd ⊢
    omega
  rcases ho : l.outp with _ | po
  · simp only [runPipelineOut, ho]
    refine runPipelinePids_no_leak env l ncmds pipes inF STDOUT_FILENO s h1 ?_
    intro x hx
    rcases hinv x hx with h | h
    · exact Or.inl h
    · exact Or.inr (Or.inl h)
  · rcases hok : env.openOutOk with _ | _
    · simp only [runPipelineOut, ho, hok, Bool.false_eq_true, if_false]
      rw [List.eq_nil_iff_forall_not_mem]
      intro x hx
      rw [mem_closePipes] at hx
      by_cases hif : inF = STDIN_FILENO
      · rw [if_neg (fun hc => hc hif)] at hx
        rcases hinv x hx.1 with h | h
        · exact hx.2 h
        · exact h.2 hif
      · rw [if_pos hif, mem_closeFd] at hx
        rcases hinv x hx.1.1 with h | h
        · exact hx.2 h
        · exact hx.1.2 h.1
    · simp only [runPipelineOut, ho, hok, if_true]
      refine runPipelinePids_no_leak env l ncmds pipes inF (openNew s).1
        (openNew s).2 h1 ?_
      intro x hx
      rw [openNew_openFds, List.mem_append] at hx
      rcases hx with hx | hx
      · rcases hinv x hx with h | h
        · exact Or.inl h
        · exact Or.inr (Or.inl h)
      · right
        right
        have hxx : x = s.nextFd := by simpa using hx
        exact ⟨hxx, h1'⟩

lemma runPipeline_no_leak (env : Env) (l : Cmdline) (ncmds : Nat) (s : PState)
    (h1 : l.seq ≠ []) (hopen : s.openFds = [])
    (hfd : STDOUT_FILENO < s.nextFd) :
    (runPipeline env l ncmds s).2.openFds = [] := by
  rcases hm : env.mallocPipesOk with _ | _
  · simp only [runPipeline, hm, Bool.false_eq_true, eq_self_iff_true, if_true]
    exact hopen
  · simp only [runPipeline, hm, Bool.true_eq_false, if_false]
    rcases hmk : (mkPipesAux env (ncmds - 1) 0 [] s).1 with _ | pipes
    · simp only [hmk]
      rw [List.eq_nil_iff_forall_not_mem]
      intro x hx
      have := (mkPipesAux_none_subset env (ncmds - 1) 0 [] s hmk x hx).1
      rw [hopen] at this
      exact List.not_mem_nil x this
    · simp only [hmk]
      have hinv1 : ∀ x ∈ ((mkPipesAux env (ncmds - 1) 0 [] s).2).openFds,
          x ∈ pipeFds pipes := by
        intro x hx
        rcases (mkPipesAux_some_subset env (ncmds - 1) 0 [] s pipes hmk).1 x hx
          with h | h
        · rw [hopen] at h
          exact absurd h (List.not_mem_nil x)
        · exact h
      have hfd1 : STDOUT_FILENO < ((mkPipesAux env (ncmds - 1) 0 [] s).2).nextFd :=
        Nat.lt_of_lt_of_le hfd (nextFd_mkPipesAux_mono env (ncmds - 1) 0 [] s)
      rcases hi : l.inp with _ | pi
      · refine runPipelineOut_no_leak env l ncmds pipes STDIN_FILENO _ h1 ?_ hfd1
        intro x hx
        exact Or.inl (hinv1 x hx)
      · rcases hok : env.openInOk with _ | _
        · simp only [hok, Bool.false_eq_true, if_false]
          rw [List.eq_nil_iff_forall_not_mem]
          intro x hx
          rw [mem_closePipes] at hx
          exact hx.2 (hinv1 x hx.1)
        · simp only [hok, if_true]
          have h0 : ((mkPipesAux env (ncmds - 1) 0 [] s).2).nextFd ≠ STDIN_FILENO := by
            simp only [STDIN_FILENO]
            simp only [STDOUT_FILENO] at hfd1
            omega
          refine runPipelineOut_no_leak env l ncmds pipes _ _ h1 ?_ ?_
          · intro x hx
            rw [openNew_openFds, List.mem_append] at hx
            rcases hx with hx | hx
            · exact Or.inl (hinv1 x hx)
            · right
              have hxx : x = ((mkPipesAux env (ncmds - 1) 0 [] s).2).nextFd := by
                simpa using hx
              exact ⟨hxx, h0⟩
          · show STDOUT_FILENO < ((mkPipesAux env (ncmds - 1) 0 [] s).2).nextFd + 1
            omega

/-- C1: after any invocation of `execute` — success or failure, single
command or pipeline, any environment outcome for `pipe`, `open`,
`fork` and `malloc` — no pipe descriptor and no redirection descriptor
opened during that invocation remains open in the calling process.
(The hypotheses say that the invocation starts with no
invocation-opened descriptor and that the standard descriptors are
already occupied, as in a real process.) -/
theorem no_descriptor_leak (env : Env) (l : Cmdline) (s : PState)
    (hopen : s.openFds = []) (hfd : STDOUT_FILENO < s.nextFd) :
    (execute env l s).2.openFds = [] := by
  by_cases h0 : l.seq.length = 0
  · simp only [execute, if_pos h0]
    exact hopen
  · by_cases h1 : l.seq.length = 1
    · obtain ⟨argv, hseq⟩ := List.length_eq_one.mp h1
      simp only [execute, if_neg h0, if_pos h1, hseq, List.get?,
        Option.getD_some]
      by_cases ha : argv = []
      · rw [if_pos ha]
        exact hopen
      · rw [if_neg ha]
        by_cases hj : argv.get? 0 = some "jobs"
        · rw [if_pos hj]
          exact hopen
        · rw [if_neg hj]
          exact runSingle_no_leak env argv l _ ha hopen hfd
    · simp only [execute, if_neg h0, if_neg h1]
      exact runPipeline_no_leak env l l.seq.length _
        (fun hc => h0 (by rw [hc]; rfl)) hopen hfd

/-- Witness for C1: a 3-stage pipeline with both redirections under
the all-success environment ends with no invocation-opened descriptor
still open. -/
theorem no_descriptor_leak_witness :
    (execute envAllOk
        { seq := [["a"], ["b"], ["c"]], inp := some "f", outp := some "g",
          bg := false } pstate0).2.openFds = [] :=
  no_descriptor_leak envAllOk
    { seq := [["a"], ["b"], ["c"]], inp := some "f", outp := some "g",
      bg := false } pstate0 rfl (by decide)

/-! ### Lemmas for the `jobs` builtin claim -/

lemma reapSlot_idem (wait : Nat → WaitRes) (j : Job) :
    reapSlot wait (reapSlot wait j) = reapSlot wait j := by
  rcases ha : j.active with _ | _
  · rw [reapSlot_inactive wait j ha, reapSlot_inactive wait j ha]
  · by_cases hc : wait j.pid = WaitRes.changed
    · have h1 : reapSlot wait j = { j with active := false } := by
        simp [reapSlot, ha, hc]
      rw [h1]
      exact reapSlot_inactive wait _ rfl
    · rw [reapSlot_not_changed wait j hc, reapSlot_not_changed wait j hc]

lemma reap_finished_jobs_idem (wait : Nat → WaitRes) (jobs : List Job) :
    reap_finished_jobs wait (reap_finished_jobs wait jobs) =
      reap_finished_jobs wait jobs := by
  simp only [reap_finished_jobs, List.map_map]
  apply List.map_congr_left
  intro j _
  exact reapSlot_idem wait j

lemma execute_command_out (env : Env) (args : List String) (infd outfd : Nat)
    (bg : Bool) (s : PState) :
    (execute_command env args infd outfd bg s).2.out = s.out := by
  rcases hf : env.forkOk 0 with _ | _ <;> rcases hb : bg with _ | _ <;>
    by_cases ha : args = [] <;>
      by_cases hi : infd = STDIN_FILENO <;> by_cases ho : outfd = STDOUT_FILENO <;>
        simp [execute_command, ha, hf, hb, hi, ho, closeFd]

lemma runSingle_out (env : Env) (argv : List String) (l : Cmdline)
    (s : PState) : (runSingle env argv l s).2.out = s.out := by
  rcases hi : l.inp with _ | pi <;> rcases ho : l.outp with _ | po <;>
    rcases hio : env.openInOk with _ | _ <;>
      rcases hoo : env.openOutOk with _ | _ <;>
        (simp [runSingle, runSingleOut, hi, ho, hio, hoo, openNew, closeFd,
          execute_command_out]
         <;> try (split <;> rfl))

lemma out_closePipes (ps : List (Nat × Nat)) (s : PState) :
    (closePipes ps s).out = s.out :=
  congrArg (fun x => x.2.2.2) (procObs_closePipes ps s)

lemma waitLoop_out (env : Env) (pids : List Nat) :
    ∀ (ts : List Nat) (s : PState),
    ((ts.foldl (fun s t =>
        let v : Int :=
          match pids.get? t with
          | some p => (p : Int)
          | none => env.pidsGarbage t
        if 0 < v then { s with waited := s.waited ++ [v] } else s) s)).out =
      s.out := by
  intro ts
  induction ts with
  | nil => intro s; rfl
  | cons t ts ih =>
    intro s
    rw [List.foldl_cons, ih]
    split <;> (dsimp only; split <;> rfl)

lemma pipeFail_out (env : Env) (pipes : List (Nat × Nat))
    (ncmds inF outF : Nat) (pids : List Nat) (s : PState) :
    (pipeFail env pipes ncmds inF outF pids s).2.out = s.out := by
  simp only [pipeFail]
  rw [waitLoop_out]
  by_cases hi : inF ≠ STDIN_FILENO <;> by_cases ho : outF ≠ STDOUT_FILENO <;>
    simp [hi, ho, closeFd, out_closePipes]

lemma spawnLoop_out (env : Env) (bg : Bool) (pipes : List (Nat × Nat))
    (ncmds outF : Nat) :
    ∀ (rem : List (List String)) (i inF : Nat) (pids : List Nat) (s : PState),
    (spawnLoop env bg pipes ncmds outF rem i inF pids s).2.out = s.out := by
  intro rem
  induction rem with
  | nil =>
    intro i inF pids s
    simp only [spawnLoop]
    have h2 : (if outF ≠ STDOUT_FILENO
        then closeFd outF (closePipes pipes s) else closePipes pipes s).out =
        s.out := by
      by_cases ho : outF ≠ STDOUT_FILENO <;> simp [ho, closeFd, out_closePipes]
    split <;> exact h2
  | cons argv rem ih =>
    intro i inF pids s
    by_cases ha : argv = []
    · simp only [spawnLoop, if_pos ha]
      exact pipeFail_out env pipes ncmds inF outF pids s
    · rcases hf : env.forkOk i with _ | _
      · simp only [spawnLoop, if_neg ha, hf, if_true]
        exact pipeFail_out env pipes ncmds inF outF pids s
      · simp only [spawnLoop, if_neg ha, hf, Bool.true_eq_false, if_false]
        rw [ih]
        by_cases h0 : 0 < i <;> by_cases hin : i = 0 ∧ inF ≠ STDIN_FILENO <;>
          simp [h0, hin, closeFd]

lemma runPipelinePids_out (env : Env) (l : Cmdline) (ncmds : Nat)
    (pipes : List (Nat × Nat)) (inF outF : Nat) (s : PState) :
    (runPipelinePids env l ncmds pipes inF outF s).2.out = s.out := by
  rcases hm : env.mallocPidsOk with _ | _
  · by_cases hi : inF ≠ STDIN_FILENO <;> by_cases ho : outF ≠ STDOUT_FILENO <;>
      simp [runPipelinePids, hm, hi, ho, closeFd, out_closePipes]
  · simp only [runPipelinePids, hm, Bool.true_eq_false, if_false]
    exact spawnLoop_out env l.bg pipes ncmds outF l.seq 0 inF []  s

lemma runPipelineOut_out (env : Env) (l : Cmdline) (ncmds : Nat)
    (pipes : List (Nat × Nat)) (inF : Nat) (s : PState) :
    (runPipelineOut env l ncmds pipes inF s).2.out = s.out := by
  rcases ho : l.outp with _ | po
  · simp only [runPipelineOut, ho]
    exact runPipelinePids_out env l ncmds pipes inF STDOUT_FILENO s
  · rcases hok : env.openOutOk with _ | _
    · by_cases hi : inF ≠ STDIN_FILENO <;>
        simp [runPipelineOut, ho, hok, hi, closeFd, out_closePipes]
    · simp only [runPipelineOut, ho, hok, if_true]
      rw [runPipelinePids_out]
      rfl

lemma runPipeline_out (env : Env) (l : Cmdline) (ncmds : Nat) (s : PState) :
    (runPipeline env l ncmds s).2.out = s.out := by
  rcases hm : env.mallocPipesOk with _ | _
  · simp [runPipeline, hm]
  · simp only [runPipeline, hm, Bool.true_eq_false, if_false]
    rcases hmk : (mkPipesAux env (ncmds - 1) 0 [] s).1 with _ | pipes
    · simp only [hmk]
      exact congrArg (fun x => x.2.2.2) (procObs_mkPipesAux env (ncmds - 1) 0 [] s)
    · simp only [hmk]
      have hout : ((mkPipesAux env (ncmds - 1) 0 [] s).2).out = s.out :=
        congrArg (fun x => x.2.2.2) (procObs_mkPipesAux env (ncmds - 1) 0 [] s)
      rcases hi : l.inp with _ | pi
      · rw [runPipelineOut_out]
        exact hout
      · rcases hok : env.openInOk with _ | _
        · simp only [hok, Bool.false_eq_true, if_false]
          rw [out_closePipes]
          exact hout
        · simp only [hok, if_true]
          rw [runPipelineOut_out]
          exact hout

lemma spawnLoop_emptiness (env : Env) (bg : Bool) (pipes : List (Nat × Nat))
    (ncmds outF : Nat) :
    ∀ (rem1 rem2 : List (List String)) (i inF : Nat) (pids : List Nat)
      (s : PState),
      rem1.map List.isEmpty = rem2.map List.isEmpty →
      spawnLoop env bg pipes ncmds outF rem1 i inF pids s =
        spawnLoop env bg pipes ncmds outF rem2 i inF pids s := by
  intro rem1
  induction rem1 with
  | nil =>
    intro rem2 i inF pids s hmap
    have : rem2 = [] := by
      cases rem2 with
      | nil => rfl
      | cons b bs => simp at hmap
    rw [this]
  | cons a rem1 ih =>
    intro rem2 i inF pids s hmap
    cases rem2 with
    | nil => simp at hmap
    | cons b rem2 =>
      simp only [List.map_cons, List.cons.injEq] at hmap
      have hab : a = [] ↔ b = [] := by
        constructor
        · intro h
          rw [h] at hmap
          have := hmap.1.symm
          simpa [List.isEmpty_iff] using this
        · intro h
          rw [h] at hmap
          simpa [List.isEmpty_iff] using hmap.1
      by_cases haa : a = []
      · have hbb : b = [] := hab.mp haa
        simp only [spawnLoop, if_pos haa, if_pos hbb]
      · have hbb : b ≠ [] := fun hc => haa (hab.mpr hc)
        simp only [spawnLoop, if_neg haa, if_neg hbb]
        rcases hf : env.forkOk i with _ | _
        · simp [hf]
        · simp only [hf, Bool.true_eq_false, if_false]
          exact ih rem2 (i + 1) _ _ _ hmap.2

lemma runPipelinePids_emptiness (env : Env) (s1 s2 : List (List String))
    (inp outp : Option String) (bg : Bool) (ncmds : Nat)
    (pipes : List (Nat × Nat)) (inF outF : Nat) (st : PState)
    (hmap : s1.map List.isEmpty = s2.map List.isEmpty) :
    runPipelinePids env { seq := s1, inp := inp, outp := outp, bg := bg }
        ncmds pipes inF outF st =
      runPipelinePids env { seq := s2, inp := inp, outp := outp, bg := bg }
        ncmds pipes inF outF st := by
  rcases hm : env.mallocPidsOk with _ | _
  · simp [runPipelinePids, hm]
  · simp only [runPipelinePids, hm, Bool.true_eq_false, if_false]
    exact spawnLoop_emptiness env bg pipes ncmds outF s1 s2 0 inF [] st hmap

lemma runPipelineOut_emptiness (env : Env) (s1 s2 : List (List String))
    (inp outp : Option String) (bg : Bool) (ncmds : Nat)
    (pipes : List (Nat × Nat)) (inF : Nat) (st : PState)
    (hmap : s1.map List.isEmpty = s2.map List.isEmpty) :
    runPipelineOut env { seq := s1, inp := inp, outp := outp, bg := bg }
        ncmds pipes inF st =
      runPipelineOut env { seq := s2, inp := inp, outp := outp, bg := bg }
        ncmds pipes inF st := by
  rcases ho : outp with _ | po
  · simp only [runPipelineOut]
    exact runPipelinePids_emptiness env s1 s2 inp none bg ncmds pipes inF
      STDOUT_FILENO st hmap
  · simp only [runPipelineOut]
    rcases hok : env.openOutOk with _ | _
    · simp [hok]
    · simp only [hok, if_true]
      exact runPipelinePids_emptiness env s1 s2 inp (some po) bg ncmds pipes inF
        (openNew st).1 (openNew st).2 hmap

lemma runPipeline_emptiness (env : Env) (s1 s2 : List (List String))
    (inp outp : Option String) (bg : Bool) (ncmds : Nat) (st : PState)
    (hmap : s1.map List.isEmpty = s2.map List.isEmpty) :
    runPipeline env { seq := s1, inp := inp, outp := outp, bg := bg } ncmds st =
      runPipeline env { seq := s2, inp := inp, outp := outp, bg := bg }
        ncmds st := by
  rcases hm : env.mallocPipesOk with _ | _
  · simp [runPipeline, hm]
  · simp only [runPipeline, hm, Bool.true_eq_false, if_false]
    rcases hmk : (mkPipesAux env (ncmds - 1) 0 [] st).1 with _ | pipes
    · simp only [hmk]
    · simp only [hmk]
      rcases hi : inp with _ | pi
      · exact runPipelineOut_emptiness env s1 s2 none outp bg ncmds pipes
          STDIN_FILENO _ hmap
      · rcases hok : env.openInOk with _ | _
        · simp [hok]
        · simp only [hok, if_true]
          exact runPipelineOut_emptiness env s1 s2 (some pi) outp bg ncmds pipes
            _ _ hmap

/-- C10: the `jobs` builtin is recognized only for a command line of
exactly one stage whose `argv[0]` is `"jobs"`.  First conjunct: in
that case `execute` only reaps and appends the listing to the shell's
own standard output — the final state keeps the caller's descriptors,
close log, fresh-descriptor counter and spawn/wait lists, so no file
is opened, created or truncated and no process is spawned, and the
result does not depend on the command line's redirection paths or
background flag.  Second conjunct: in a pipeline of `N ≥ 2` stages the
executor's behaviour depends on the stage vectors only through which
of them are empty, so a `jobs` stage is treated exactly like any other
(external) stage.  Third conjunct: in every other case nothing is ever
printed to standard output — the listing appears only for the
single-stage `jobs` builtin. -/
theorem jobs_builtin_recognition (env : Env) (st : PState) :
    (∀ (argv : List String) (l : Cmdline), l.seq = [argv] →
      argv.get? 0 = some "jobs" →
      execute env l st =
        (0, { st with
                jobs := reap_finished_jobs env.wait st.jobs,
                out := st.out ++
                  (print_jobs env.wait
                    (reap_finished_jobs env.wait st.jobs)).2 })) ∧
    (∀ (s1 s2 : List (List String)) (inp outp : Option String) (bg : Bool),
      2 ≤ s1.length → s1.map List.isEmpty = s2.map List.isEmpty →
      execute env { seq := s1, inp := inp, outp := outp, bg := bg } st =
        execute env { seq := s2, inp := inp, outp := outp, bg := bg } st) ∧
    (∀ l : Cmdline, (¬ ∃ argv, l.seq = [argv] ∧ argv.get? 0 = some "jobs") →
      (execute env l st).2.out = st.out) := by
  refine ⟨?_, ?_, ?_⟩
  · intro argv l hseq hj
    have ha : argv ≠ [] := by
      intro h
      rw [h] at hj
      simp at hj
    simp only [execute, hseq, List.length_singleton, one_ne_zero, if_false,
      if_pos rfl, List.get?, Option.getD_some]
    rw [if_neg ha, if_pos hj]
    simp [print_jobs, reap_finished_jobs_idem]
  · intro s1 s2 inp outp bg hlen hmap
    have hlen2 : s2.length = s1.length := by
      have := congrArg List.length hmap
      simpa using this.symm
    have h0 : ¬ (s1.length = 0) := by omega
    have h1 : ¬ (s1.length = 1) := by omega
    have h0' : ¬ (s2.length = 0) := by omega
    have h1' : ¬ (s2.length = 1) := by omega
    simp only [execute, if_neg h0, if_neg h1, if_neg h0', if_neg h1']
    rw [hlen2]
    exact runPipeline_emptiness env s1 s2 inp outp bg s1.length _ hmap
  · intro l hnj
    by_cases h0 : l.seq.length = 0
    · simp only [execute, if_pos h0]
    · by_cases h1 : l.seq.length = 1
      · obtain ⟨argv, hseq⟩ := List.length_eq_one.mp h1
        simp only [execute, if_neg h0, if_pos h1, hseq, List.get?,
          Option.getD_some]
        by_cases ha : argv = []
        · rw [if_pos ha]
          simp
        · rw [if_neg ha]
          by_cases hj : argv.get? 0 = some "jobs"
          · exact absurd ⟨argv, hseq, hj⟩ hnj
          · rw [if_neg hj]
            exact runSingle_out env argv l _
      · simp only [execute, if_neg h0, if_neg h1]
        exact runPipeline_out env l l.seq.length _

/-- Witness for C10: `jobs -l` as the sole stage, with both
redirection paths and the background flag set, prints the listing and
changes nothing else — redirections and the flag are ignored. -/
theorem jobs_builtin_recognition_witness :
    execute envAllOk
        { seq := [["jobs", "-l"]], inp := some "f", outp := some "g",
          bg := true } pstate0 =
      (0, { pstate0 with
              jobs := reap_finished_jobs envAllOk.wait pstate0.jobs,
              out := pstate0.out ++
                (print_jobs envAllOk.wait
                  (reap_finished_jobs envAllOk.wait pstate0.jobs)).2 }) :=
  (jobs_builtin_recognition envAllOk pstate0).1 ["jobs", "-l"]
    { seq := [["jobs", "-l"]], inp := some "f", outp := some "g", bg := true }
    rfl rfl

end ShellCore
